import Mathlib

/-!
# Verification of the zebra-tfl finalized state and syncer

This file gives a shallow embedding of the two core components of the
repository:

* `ZebraDb` and its read/write methods, translated from
  `zebra-state/src/service/finalized_state/zebra_db/block.rs`;
* the `Syncer` tip-handling and outer-loop control logic, translated from
  `zebrad/src/commands/start/sync.rs`.

Block hashes, transaction hashes, addresses and note commitment trees are
abstracted as natural numbers; heights as naturals; machine-level key
encodings are irrelevant to the verified properties and are not modelled.
Functions that can panic in the source (`expect`, `assert_eq!`) return
`Option`, with `none` standing for the panic.  Fallible functions return
`Except String`.
-/

namespace ZebraTfl

/-! ## Column-family primitives

A RocksDB column family is modelled as a duplicate-free association list.
`zsInsert` overwrites an existing binding, `zsGet` is a point lookup and
`zsLastKeyValue` returns the entry with the greatest key (RocksDB iterates
keys in order, and the key encodings in this store are order-preserving). -/

def zsGet {K V : Type} [DecidableEq K] : List (K × V) → K → Option V
  | [], _ => none
  | (k', v) :: rest, k => if k = k' then some v else zsGet rest k

def zsInsert {K V : Type} [DecidableEq K] (cf : List (K × V)) (k : K) (v : V) :
    List (K × V) :=
  (k, v) :: cf.filter (fun p => p.1 ≠ k)

def zsLastKeyValue {V : Type} (cf : List (Nat × V)) : Option (Nat × V) :=
  cf.foldl
    (fun acc p =>
      match acc with
      | none => some p
      | some q => if q.1 < p.1 then some p else some q)
    none

/-! ## Data model -/

/-- `TransactionLocation`: (block height, transaction index within the block). -/
abbrev TransactionLocation := Nat × Nat

/-- `OutputLocation`: (transaction location, output index within the tx). -/
abbrev OutputLocation := TransactionLocation × Nat

/-- `OutPoint`: (transaction hash, output index). -/
abbrev OutPoint := Nat × Nat

/-- The all-zeros pre-genesis sentinel hash (`GENESIS_PREVIOUS_BLOCK_HASH`). -/
def GENESIS_PREVIOUS_BLOCK_HASH : Nat := 0

/-- A transparent output: its value and (optionally) the address its script
pays to.  `utxo.output.address(network)` in the source is modelled by the
`address` field, so the `network` argument becomes irrelevant here. -/
structure Utxo where
  value : Nat
  address : Option Nat
  deriving DecidableEq, Repr

/-- A transaction, reduced to the fields the finalized store reads:
`inputs` holds `input.outpoint()` for each input (`none` for a coinbase
input), `outputs` the transparent outputs, and `nullifiers`/`anchors` the
shielded spend data consumed by the shielded staging step. -/
structure Transaction where
  inputs : List (Option OutPoint)
  outputs : List Utxo
  nullifiers : List Nat
  anchors : List Nat
  deriving DecidableEq, Repr

/-- A block header; only `previous_block_hash` is read by this store.
`rest` stands for the remaining header fields. -/
structure Header where
  previous_block_hash : Nat
  rest : Nat
  deriving DecidableEq, Repr

structure Block where
  header : Header
  transactions : List Transaction
  deriving DecidableEq, Repr

/-- The three per-protocol note commitment trees; each tree is abstracted as
a natural number, with `0` the empty (default) tree. -/
structure NoteCommitmentTrees where
  sprout : Nat
  sapling : Nat
  orchard : Nat
  deriving DecidableEq, Repr

def NoteCommitmentTrees.default : NoteCommitmentTrees := ⟨0, 0, 0⟩

structure Treestate where
  note_commitment_trees : NoteCommitmentTrees
  deriving DecidableEq, Repr

/-- Per-pool running value balances (transparent, sprout, sapling, orchard). -/
structure ValueBalance where
  transparent : Int
  sprout : Int
  sapling : Int
  orchard : Int
  deriving DecidableEq, Repr

def ValueBalance.zero : ValueBalance := ⟨0, 0, 0, 0⟩

/-- `AddressBalanceLocation`: an address's aggregate balance plus the first
`OutputLocation` that created the address. -/
structure AddressBalanceLocation where
  balance : Int
  location : OutputLocation
  deriving DecidableEq, Repr

/-- `SemanticallyVerifiedBlock`: a block plus the data precomputed by
semantic verification.  `new_outputs` maps each outpoint created by this
block to its UTXO (the `OrderedUtxo` wrapper is dropped: only `.utxo` is
read here), and `transaction_hashes` lists the block's tx hashes in order. -/
structure SemanticallyVerifiedBlock where
  block : Block
  hash : Nat
  height : Nat
  new_outputs : List (OutPoint × Utxo)
  transaction_hashes : List Nat
  deriving DecidableEq, Repr

structure SemanticallyVerifiedBlockWithTrees where
  verified : SemanticallyVerifiedBlock
  treestate : Treestate
  deriving DecidableEq, Repr

/-- `HashOrHeight` from the zebra-state request surface. -/
inductive HashOrHeight where
  | hash (h : Nat)
  | height (h : Nat)
  deriving DecidableEq, Repr

/-- `HashOrHeight::height_or_else`: a `Height` is returned as-is (without
any existence check); a `Hash` is resolved through `op`. -/
def HashOrHeight.height_or_else (hh : HashOrHeight) (op : Nat → Option Nat) :
    Option Nat :=
  match hh with
  | .height h => some h
  | .hash x => op x

/-- `Transaction::max_allocation()`.  The numeric value lives outside this
excerpt (`TrustedPreallocate`); any positive bound gives the same probe-until-
first-miss semantics, so a small concrete stand-in is used. -/
def Transaction.max_allocation : Nat := 600

/-! ## The finalized state

One field per column family used by `zebra_db/block.rs`, plus the
nullifier/anchor/value-pool families touched by the staging steps.  The
nullifier and anchor families only record key sets here. -/

structure ZebraDb where
  hash_by_height : List (Nat × Nat)
  height_by_hash : List (Nat × Nat)
  block_header_by_height : List (Nat × Header)
  tx_by_loc : List (TransactionLocation × Transaction)
  hash_by_tx_loc : List (TransactionLocation × Nat)
  tx_loc_by_hash : List (Nat × TransactionLocation)
  utxo_by_out_loc : List (OutputLocation × Utxo)
  out_loc_by_outpoint : List (OutPoint × OutputLocation)
  balance_by_address : List (Nat × AddressBalanceLocation)
  sprout_note_commitment_tree : List (Nat × Nat)
  sapling_note_commitment_tree : List (Nat × Nat)
  orchard_note_commitment_tree : List (Nat × Nat)
  nullifiers : List Nat
  anchors : List Nat
  value_pool : ValueBalance
  deriving DecidableEq, Repr

/-- The empty database. -/
def ZebraDb.empty : ZebraDb :=
  ⟨[], [], [], [], [], [], [], [], [], [], [], [], [], [], ValueBalance.zero⟩

namespace ZebraDb

/-- `ZebraDb::is_empty`. -/
def is_empty (db : ZebraDb) : Bool := db.hash_by_height.isEmpty

/-- `ZebraDb::tip`: the last (greatest-height) entry of `hash_by_height`. -/
def tip (db : ZebraDb) : Option (Nat × Nat) := zsLastKeyValue db.hash_by_height

/-- `ZebraDb::contains_height`. -/
def contains_height (db : ZebraDb) (height : Nat) : Bool :=
  (zsGet db.hash_by_height height).isSome

/-- `ZebraDb::hash`. -/
def hash (db : ZebraDb) (height : Nat) : Option Nat :=
  zsGet db.hash_by_height height

/-- `ZebraDb::contains_hash`. -/
def contains_hash (db : ZebraDb) (h : Nat) : Bool :=
  (zsGet db.height_by_hash h).isSome

/-- `ZebraDb::height`. -/
def height (db : ZebraDb) (h : Nat) : Option Nat :=
  zsGet db.height_by_hash h

/-- `ZebraDb::block_header`. -/
def block_header (db : ZebraDb) (hash_or_height : HashOrHeight) :
    Option Header :=
  (hash_or_height.height_or_else db.height).bind fun h =>
    zsGet db.block_header_by_height h

/-- The probe loop in `ZebraDb::block` and `transaction_hashes_for_block`:
fetch locations `(height, idx)`, `(height, idx+1)`, ... until the first
missing index, collecting the values found.  `fuel` is the number of
remaining probes (`max_allocation + 1` at the top call). -/
def collectByTxLoc {V : Type} (cf : List (TransactionLocation × V))
    (h : Nat) : Nat → Nat → List V
  | 0, _ => []
  | fuel + 1, idx =>
    match zsGet cf (h, idx) with
    | some v => v :: collectByTxLoc cf h fuel (idx + 1)
    | none => []

/-- `ZebraDb::block`: resolve the height, fetch the header, then fetch
transactions at indices `0..=Transaction::max_allocation()` stopping at the
first missing index. -/
def block (db : ZebraDb) (hash_or_height : HashOrHeight) : Option Block :=
  (hash_or_height.height_or_else db.height).bind fun h =>
    (db.block_header (.height h)).map fun header =>
      { header := header
        transactions :=
          collectByTxLoc db.tx_by_loc h (Transaction.max_allocation + 1) 0 }

/-- `ZebraDb::finalized_tip_hash`: the tip hash, or the pre-genesis
sentinel when the state is empty. -/
def finalized_tip_hash (db : ZebraDb) : Nat :=
  match db.tip with
  | some (_, h) => h
  | none => GENESIS_PREVIOUS_BLOCK_HASH

/-- `ZebraDb::finalized_tip_height`. -/
def finalized_tip_height (db : ZebraDb) : Option Nat :=
  db.tip.map Prod.fst

/-- `ZebraDb::transaction_location`. -/
def transaction_location (db : ZebraDb) (h : Nat) :
    Option TransactionLocation :=
  zsGet db.tx_loc_by_hash h

/-- `ZebraDb::transaction_hash`. -/
def transaction_hash (db : ZebraDb) (location : TransactionLocation) :
    Option Nat :=
  zsGet db.hash_by_tx_loc location

/-- `ZebraDb::transaction`: resolve the location for the hash, then the
transaction at that location (paired with its height). -/
def transaction (db : ZebraDb) (h : Nat) : Option (Transaction × Nat) :=
  (db.transaction_location h).bind fun loc =>
    (zsGet db.tx_by_loc loc).map fun tx => (tx, loc.1)

/-- `ZebraDb::transaction_hashes_for_block`: resolve the height (a `Height`
argument is accepted unchecked), then probe tx-hash locations until the
first miss.  Always `some` once the height resolves. -/
def transaction_hashes_for_block (db : ZebraDb)
    (hash_or_height : HashOrHeight) : Option (List Nat) :=
  (hash_or_height.height_or_else db.height).map fun h =>
    collectByTxLoc db.hash_by_tx_loc h (Transaction.max_allocation + 1) 0

/-- Modelled from the spec: `ZebraDb::output_location` (defined in
`zebra_db/transparent.rs`, outside this excerpt) is a point lookup in the
`out_loc_by_outpoint` parallel index. -/
def output_location (db : ZebraDb) (outpoint : OutPoint) :
    Option OutputLocation :=
  zsGet db.out_loc_by_outpoint outpoint

/-- Modelled from the spec: `ZebraDb::utxo` (defined in
`zebra_db/transparent.rs`, outside this excerpt) resolves the outpoint to an
`OutputLocation` and then looks the UTXO up in `utxo_by_out_loc`. -/
def utxo (db : ZebraDb) (outpoint : OutPoint) : Option Utxo :=
  (db.output_location outpoint).bind fun loc => zsGet db.utxo_by_out_loc loc

/-- Modelled from the spec: `ZebraDb::address_balance_location` (defined in
`zebra_db/transparent.rs`, outside this excerpt) is a point lookup in
`balance_by_address`. -/
def address_balance_location (db : ZebraDb) (address : Nat) :
    Option AddressBalanceLocation :=
  zsGet db.balance_by_address address

/-- Modelled from the spec: `ZebraDb::finalized_value_pool` (defined in
`zebra_db/shielded.rs`, outside this excerpt) reads the singleton value-pool
column family. -/
def finalized_value_pool (db : ZebraDb) : ValueBalance := db.value_pool

end ZebraDb

/-! ## The write batch

`DiskWriteBatch` is a pure data value: one staged-operation list per column
family, applied atomically by `ZebraDb.write`.  Staged inserts are appended
in staging order; a later insert or delete of the same key wins, as in a
RocksDB `WriteBatch`. -/

structure DiskWriteBatch where
  block_header_by_height : List (Nat × Header) := []
  hash_by_height : List (Nat × Nat) := []
  height_by_hash : List (Nat × Nat) := []
  tx_by_loc : List (TransactionLocation × Transaction) := []
  hash_by_tx_loc : List (TransactionLocation × Nat) := []
  tx_loc_by_hash : List (Nat × TransactionLocation) := []
  utxo_inserts : List (OutputLocation × Utxo) := []
  utxo_deletes : List OutputLocation := []
  out_loc_inserts : List (OutPoint × OutputLocation) := []
  out_loc_deletes : List OutPoint := []
  balance_by_address : List (Nat × AddressBalanceLocation) := []
  sprout_tree_inserts : List (Nat × Nat) := []
  sapling_tree_inserts : List (Nat × Nat) := []
  orchard_tree_inserts : List (Nat × Nat) := []
  nullifiers : List Nat := []
  anchors : List Nat := []
  value_pool : Option ValueBalance := none
  deriving DecidableEq, Repr

/-- `DiskWriteBatch::new(network)`: an empty batch (the network only selects
key encodings, which are not modelled). -/
def DiskWriteBatch.new (_network : Nat) : DiskWriteBatch := {}

/-- Apply a list of staged inserts to a column family. -/
def applyInserts {K V : Type} [DecidableEq K] (cf : List (K × V))
    (inserts : List (K × V)) : List (K × V) :=
  inserts.foldl (fun acc p => zsInsert acc p.1 p.2) cf

/-- `DiskDb::write`: apply the whole batch to the database atomically.
Deletes are applied after inserts within the same column family, matching
the staging order used by the block batch (spent UTXOs are deleted after new
UTXOs are inserted). -/
def ZebraDb.write (db : ZebraDb) (b : DiskWriteBatch) : ZebraDb where
  hash_by_height := applyInserts db.hash_by_height b.hash_by_height
  height_by_hash := applyInserts db.height_by_hash b.height_by_hash
  block_header_by_height :=
    applyInserts db.block_header_by_height b.block_header_by_height
  tx_by_loc := applyInserts db.tx_by_loc b.tx_by_loc
  hash_by_tx_loc := applyInserts db.hash_by_tx_loc b.hash_by_tx_loc
  tx_loc_by_hash := applyInserts db.tx_loc_by_hash b.tx_loc_by_hash
  utxo_by_out_loc :=
    (applyInserts db.utxo_by_out_loc b.utxo_inserts).filter
      (fun p => !(b.utxo_deletes.elem p.1))
  out_loc_by_outpoint :=
    (applyInserts db.out_loc_by_outpoint b.out_loc_inserts).filter
      (fun p => !(b.out_loc_deletes.elem p.1))
  balance_by_address := applyInserts db.balance_by_address b.balance_by_address
  sprout_note_commitment_tree :=
    applyInserts db.sprout_note_commitment_tree b.sprout_tree_inserts
  sapling_note_commitment_tree :=
    applyInserts db.sapling_note_commitment_tree b.sapling_tree_inserts
  orchard_note_commitment_tree :=
    applyInserts db.orchard_note_commitment_tree b.orchard_tree_inserts
  nullifiers := db.nullifiers ++ b.nullifiers
  anchors := db.anchors ++ b.anchors
  value_pool := b.value_pool.getD db.value_pool

/-! ## Staging helpers used by `write_block` -/

/-- Collect the results of a per-element lookup that panics on failure
(`expect` in the source): `none` is the panic. -/
def collectResolved {A B : Type} (f : A → Option B) : List A → Option (List B)
  | [] => some []
  | a :: rest =>
    match f a, collectResolved f rest with
    | some b, some bs => some (b :: bs)
    | _, _ => none

/-- Collect the results of a per-element fallible computation, propagating
the first error. -/
def collectExcept {A B : Type} (f : A → Except String B) :
    List A → Except String (List B)
  | [] => .ok []
  | a :: rest =>
    match f a, collectExcept f rest with
    | .ok b, .ok bs => .ok (b :: bs)
    | .error e, _ => .error e
    | _, .error e => .error e

/-- The `tx_hash_indexes` map built at the top of `write_block`: transaction
hash to index within this block, built by inserting the enumerated hashes in
order (so a duplicate hash keeps its last index, as in a `HashMap` collect). -/
def tx_hash_indexes (finalized : SemanticallyVerifiedBlockWithTrees) :
    List (Nat × Nat) :=
  finalized.verified.transaction_hashes.enum.foldl
    (fun m p => zsInsert m p.2 p.1) []

/-- `lookup_out_loc`: locate an outpoint inside this block via
`tx_hash_indexes`.  The `expect` on a missing hash is the `none` case. -/
def lookup_out_loc (height : Nat) (outpoint : OutPoint)
    (txHashIndexes : List (Nat × Nat)) : Option OutputLocation :=
  (zsGet txHashIndexes outpoint.1).map fun tx_index =>
    ((height, tx_index), outpoint.2)

/-- The `new_outputs_by_out_loc` map of `write_block`: each new outpoint
resolved to its `OutputLocation` within this block (panics, i.e. `none`, if
an outpoint's transaction hash is not in `tx_hash_indexes`).  The `BTreeMap`
key ordering is dropped: no later step depends on it. -/
def new_outputs_by_out_loc_opt (finalized : SemanticallyVerifiedBlockWithTrees)
    (txHashIndexes : List (Nat × Nat)) : Option (List (OutputLocation × Utxo)) :=
  collectResolved
    (fun p =>
      (lookup_out_loc finalized.verified.height p.1 txHashIndexes).map
        fun loc => (loc, p.2))
    finalized.verified.new_outputs

/-- All outpoints spent by the block: every `input.outpoint()` across all
transactions, skipping coinbase inputs. -/
def spentOutpoints (b : Block) : List OutPoint :=
  b.transactions.flatMap fun tx => tx.inputs.filterMap id

/-- Resolve one spent outpoint, as in the `spent_utxos` construction of
`write_block`: the location comes from the existing UTXO index or (for an
intra-block spend) from `lookup_out_loc`; the UTXO comes from the database
or from this block's `new_outputs`.  Either `expect` failing is `none`. -/
def resolve_spent (db : ZebraDb) (height : Nat)
    (txHashIndexes : List (Nat × Nat)) (new_outputs : List (OutPoint × Utxo))
    (outpoint : OutPoint) : Option (OutPoint × OutputLocation × Utxo) :=
  let loc :=
    match db.output_location outpoint with
    | some l => some l
    | none => lookup_out_loc height outpoint txHashIndexes
  let u :=
    match db.utxo outpoint with
    | some u => some u
    | none => zsGet new_outputs outpoint
  match loc, u with
  | some l, some u => some (outpoint, l, u)
  | _, _ => none

/-- The `spent_utxos` list of `write_block`. -/
def spent_utxos_opt (db : ZebraDb)
    (finalized : SemanticallyVerifiedBlockWithTrees)
    (txHashIndexes : List (Nat × Nat)) :
    Option (List (OutPoint × OutputLocation × Utxo)) :=
  collectResolved
    (resolve_spent db finalized.verified.height txHashIndexes
      finalized.verified.new_outputs)
    (spentOutpoints finalized.verified.block)

/-- The `changed_addresses` set of `write_block`: addresses of spent and new
UTXOs, deduplicated.  The `BTreeMap`-value iteration order of the source is
dropped; only the resulting set matters downstream. -/
def changed_addresses (spentByLoc : List (OutputLocation × Utxo))
    (finalized : SemanticallyVerifiedBlockWithTrees) : List Nat :=
  ((spentByLoc.map Prod.snd ++
      finalized.verified.new_outputs.map Prod.snd).filterMap
    (fun u => u.address)).dedup

/-- The `address_balances` snapshot of `write_block`: current balance entry
for each changed address, skipping addresses with no stored balance. -/
def address_balances (db : ZebraDb) (changed : List Nat) :
    List (Nat × AddressBalanceLocation) :=
  changed.filterMap fun a =>
    (db.address_balance_location a).map fun abl => (a, abl)

/-! ## Batch staging steps -/

/-- `DiskWriteBatch::prepare_block_header_and_transaction_data_batch`:
stage the header, the hash/height indexes, and each transaction with its
bidirectional hash/location index.  (The source's per-transaction loop over
`transactions.zip(transaction_hashes)` is written as three maps over the
same enumerated zip.)  This step cannot fail. -/
def DiskWriteBatch.prepare_block_header_and_transaction_data_batch
    (self : DiskWriteBatch) (finalized : SemanticallyVerifiedBlock) :
    DiskWriteBatch :=
  let entries := (finalized.block.transactions.zip
    finalized.transaction_hashes).enum
  { self with
    block_header_by_height :=
      self.block_header_by_height ++
        [(finalized.height, finalized.block.header)]
    hash_by_height := self.hash_by_height ++ [(finalized.height, finalized.hash)]
    height_by_hash := self.height_by_hash ++ [(finalized.hash, finalized.height)]
    tx_by_loc :=
      self.tx_by_loc ++ entries.map fun p => ((finalized.height, p.1), p.2.1)
    hash_by_tx_loc :=
      self.hash_by_tx_loc ++
        entries.map fun p => ((finalized.height, p.1), p.2.2)
    tx_loc_by_hash :=
      self.tx_loc_by_hash ++
        entries.map fun p => (p.2.2, (finalized.height, p.1)) }

/-- `DiskWriteBatch::prepare_genesis_batch`: if the block's previous hash is
the pre-genesis sentinel, assert that the treestate holds the three empty
note commitment trees (`none` models the `assert_eq!` panic), stage them at
the block's height, and return `true`; otherwise stage nothing and return
`false`.  (The source also triggers root-cache computation on the trees,
which has no observable effect on the batch.) -/
def DiskWriteBatch.prepare_genesis_batch (self : DiskWriteBatch)
    (finalized : SemanticallyVerifiedBlockWithTrees) :
    Option (DiskWriteBatch × Bool) :=
  if finalized.verified.block.header.previous_block_hash =
      GENESIS_PREVIOUS_BLOCK_HASH then
    if finalized.treestate.note_commitment_trees = NoteCommitmentTrees.default
    then
      some
        ({ self with
            sprout_tree_inserts :=
              self.sprout_tree_inserts ++
                [(finalized.verified.height,
                  finalized.treestate.note_commitment_trees.sprout)]
            sapling_tree_inserts :=
              self.sapling_tree_inserts ++
                [(finalized.verified.height,
                  finalized.treestate.note_commitment_trees.sapling)]
            orchard_tree_inserts :=
              self.orchard_tree_inserts ++
                [(finalized.verified.height,
                  finalized.treestate.note_commitment_trees.orchard)] },
          true)
    else none
  else some (self, false)

/-- Sum of the values of the UTXOs in `us` paying to address `a`. -/
def utxoSumFor (a : Nat) (us : List Utxo) : Int :=
  ((us.filter fun u => u.address = some a).map
    fun u => (u.value : Int)).sum

/-- Modelled from the spec: `prepare_transparent_transaction_batch` (defined
in `zebra_db/transparent.rs`, outside this excerpt) stages the new UTXOs,
deletes the spent ones, maintains the parallel outpoint index, and updates
each changed address's balance (received minus spent); a balance that would
go negative is an error. -/
def DiskWriteBatch.prepare_transparent_transaction_batch
    (self : DiskWriteBatch) (finalized : SemanticallyVerifiedBlock)
    (new_outputs_by_out_loc : List (OutputLocation × Utxo))
    (spent_utxos_by_outpoint : List (OutPoint × Utxo))
    (spent_utxos_by_out_loc : List (OutputLocation × Utxo))
    (addressBalances : List (Nat × AddressBalanceLocation)) :
    Except String DiskWriteBatch :=
  let newUtxos := finalized.new_outputs.map Prod.snd
  let spentUtxos := spent_utxos_by_outpoint.map Prod.snd
  (collectExcept
      (fun p =>
        let nb := p.2.balance + utxoSumFor p.1 newUtxos -
          utxoSumFor p.1 spentUtxos
        if nb < 0 then .error "address balance underflow"
        else .ok (p.1, { p.2 with balance := nb }))
      addressBalances).map
    fun newBalances =>
      { self with
        utxo_inserts := self.utxo_inserts ++ new_outputs_by_out_loc
        utxo_deletes :=
          self.utxo_deletes ++ spent_utxos_by_out_loc.map Prod.fst
        out_loc_inserts :=
          self.out_loc_inserts ++
            (finalized.new_outputs.zip new_outputs_by_out_loc).map
              fun p => (p.1.1, p.2.1)
        out_loc_deletes :=
          self.out_loc_deletes ++ spent_utxos_by_outpoint.map Prod.fst
        balance_by_address := self.balance_by_address ++ newBalances }

/-- Modelled from the spec: `prepare_shielded_transaction_batch` (defined in
`zebra_db/shielded.rs`, outside this excerpt) stages the block's nullifiers
and anchors. -/
def DiskWriteBatch.prepare_shielded_transaction_batch (self : DiskWriteBatch)
    (finalized : SemanticallyVerifiedBlock) : Except String DiskWriteBatch :=
  .ok
    { self with
      nullifiers :=
        self.nullifiers ++
          finalized.block.transactions.flatMap fun tx => tx.nullifiers
      anchors :=
        self.anchors ++ finalized.block.transactions.flatMap fun tx => tx.anchors }

/-- Modelled from the spec: `prepare_trees_batch` (defined in
`zebra_db/shielded.rs`, outside this excerpt) stages the block's note
commitment trees keyed at its height (the trees in `finalized.treestate`
were computed from the previous trees plus this block's notes by the
caller, so `prev_note_commitment_trees` carries no extra information here). -/
def DiskWriteBatch.prepare_trees_batch (self : DiskWriteBatch)
    (finalized : SemanticallyVerifiedBlockWithTrees)
    (_prev_note_commitment_trees : Option NoteCommitmentTrees) :
    Except String DiskWriteBatch :=
  .ok
    { self with
      sprout_tree_inserts :=
        self.sprout_tree_inserts ++
          [(finalized.verified.height,
            finalized.treestate.note_commitment_trees.sprout)]
      sapling_tree_inserts :=
        self.sapling_tree_inserts ++
          [(finalized.verified.height,
            finalized.treestate.note_commitment_trees.sapling)]
      orchard_tree_inserts :=
        self.orchard_tree_inserts ++
          [(finalized.verified.height,
            finalized.treestate.note_commitment_trees.orchard)] }

/-- The transparent value-pool change of a block: created output value minus
spent output value.  Shielded value balances are not carried by the modelled
transactions, so the shielded pool components are unchanged. -/
def transparentPoolChange (finalized : SemanticallyVerifiedBlock)
    (spent_utxos_by_outpoint : List (OutPoint × Utxo)) : Int :=
  ((finalized.block.transactions.flatMap fun tx => tx.outputs).map
      fun u => (u.value : Int)).sum -
    (spent_utxos_by_outpoint.map fun p => (p.2.value : Int)).sum

/-- Modelled from the spec: `prepare_chain_value_pools_batch` (defined in
`zebra_db/shielded.rs`, outside this excerpt) adds the block's inflows and
subtracts its outflows per pool, erroring if any component of the updated
pool would be negative, and stages the updated pool. -/
def DiskWriteBatch.prepare_chain_value_pools_batch (self : DiskWriteBatch)
    (finalized : SemanticallyVerifiedBlock)
    (spent_utxos_by_outpoint : List (OutPoint × Utxo))
    (value_pool : ValueBalance) : Except String DiskWriteBatch :=
  let vp := { value_pool with
    transparent :=
      value_pool.transparent +
        transparentPoolChange finalized spent_utxos_by_outpoint }
  if vp.transparent < 0 ∨ vp.sprout < 0 ∨ vp.sapling < 0 ∨ vp.orchard < 0 then
    .error "value pool underflow"
  else .ok { self with value_pool := some vp }

/-- `DiskWriteBatch::prepare_block_batch`: stage header and transaction
data; then, for a genesis block, stop early with the genesis batch; else
stage transparent, shielded, tree, and value-pool updates in order,
propagating the first error.  `none` is a panic in the genesis assertions. -/
def DiskWriteBatch.prepare_block_batch (self : DiskWriteBatch)
    (finalized : SemanticallyVerifiedBlockWithTrees)
    (new_outputs_by_out_loc : List (OutputLocation × Utxo))
    (spent_utxos_by_outpoint : List (OutPoint × Utxo))
    (spent_utxos_by_out_loc : List (OutputLocation × Utxo))
    (addressBalances : List (Nat × AddressBalanceLocation))
    (value_pool : ValueBalance)
    (prev_note_commitment_trees : Option NoteCommitmentTrees) :
    Option (Except String DiskWriteBatch) :=
  let self :=
    self.prepare_block_header_and_transaction_data_batch finalized.verified
  match self.prepare_genesis_batch finalized with
  | none => none
  | some (self, true) => some (.ok self)
  | some (self, false) =>
    some (do
      let self ← self.prepare_transparent_transaction_batch finalized.verified
        new_outputs_by_out_loc spent_utxos_by_outpoint spent_utxos_by_out_loc
        addressBalances
      let self ← self.prepare_shielded_transaction_batch finalized.verified
      let self ← self.prepare_trees_batch finalized prev_note_commitment_trees
      self.prepare_chain_value_pools_batch finalized.verified
        spent_utxos_by_outpoint value_pool)

/-! ## `write_block` -/

/-- Everything `ZebraDb::write_block` does before writing: build the lookup
maps (either `expect` failing is `none`) and stage the batch.  The result is
the staged batch, an error to be propagated, or `none` for a panic. -/
def ZebraDb.write_block_staged (db : ZebraDb)
    (finalized : SemanticallyVerifiedBlockWithTrees)
    (prev_note_commitment_trees : Option NoteCommitmentTrees) (network : Nat) :
    Option (Except String DiskWriteBatch) :=
  let txIdx := tx_hash_indexes finalized
  match new_outputs_by_out_loc_opt finalized txIdx with
  | none => none
  | some newByLoc =>
    match spent_utxos_opt db finalized txIdx with
    | none => none
    | some spent =>
      let spentByOutpoint := spent.map fun t => (t.1, t.2.2)
      let spentByLoc := spent.map fun t => (t.2.1, t.2.2)
      let balances := address_balances db (changed_addresses spentByLoc finalized)
      (DiskWriteBatch.new network).prepare_block_batch finalized newByLoc
        spentByOutpoint spentByLoc balances db.finalized_value_pool
        prev_note_commitment_trees

/-- `ZebraDb::write_block`: stage the batch; on a staging error, propagate
it and leave the database untouched; otherwise write the batch atomically
and return the block's hash together with the updated database. -/
def ZebraDb.write_block (db : ZebraDb)
    (finalized : SemanticallyVerifiedBlockWithTrees)
    (prev_note_commitment_trees : Option NoteCommitmentTrees) (network : Nat) :
    Option (Except String Nat × ZebraDb) :=
  match db.write_block_staged finalized prev_note_commitment_trees network with
  | none => none
  | some (.error e) => some (.error e, db)
  | some (.ok batch) => some (.ok finalized.verified.hash, db.write batch)

/-! ## The syncer (`zebrad/src/commands/start/sync.rs`)

Block hashes are again naturals.  The pure per-response computations of
`obtain_tips` and `extend_tips` are translated directly; the outer loop of
`Syncer::sync` is a step machine driven by an environment event list, with
one emitted `AwaitPt` per modelled suspension point. -/

/-- `CheckedTip`: a prospective chain tip and the hash expected to follow it. -/
structure CheckedTip where
  tip : Nat
  expected_next : Nat
  deriving DecidableEq, Repr

/-- The `first_unknown` loop of `obtain_tips` (lines 265-279): scan the
hashes in order and return the suffix starting at the first hash not in the
state; `none` when every hash is known (the response is then skipped). -/
def first_unknown_suffix (inState : Nat → Bool) : List Nat → Option (List Nat)
  | [] => none
  | h :: rest =>
    if inState h then first_unknown_suffix inState rest else some (h :: rest)

/-- The tip built from `unknown_hashes` by
`unknown_hashes.rchunks_exact(2).next()` (lines 283-291): the last two
hashes, as `CheckedTip { tip = second-last, expected_next = last }`, or
`none` when fewer than two hashes remain.  `rchunks_exact` walks from the
end of the slice, so it is translated through `List.reverse`. -/
def checked_tip_from_rchunks (unknown_hashes : List Nat) : Option CheckedTip :=
  match unknown_hashes.reverse with
  | last :: second_last :: _ => some ⟨second_last, last⟩
  | _ => none

/-- The per-response tip computation of `obtain_tips` (lines 246-291): drop
an empty response; discard the last hash; keep the suffix of unknown
hashes; form the tip from its final pair. -/
def obtain_tips_new_tip (inState : Nat → Bool) (hashes : List Nat) :
    Option CheckedTip :=
  match hashes with
  | [] => none
  | _ =>
    (first_unknown_suffix inState hashes.dropLast).bind
      checked_tip_from_rchunks

/-- A restatement of the tip computation in the spec's words, for
comparison with `obtain_tips_new_tip`: discard the last hash; take the
suffix from the first hash not in state; if at least two remain, the tip is
the second-last and the expected next hash is the last. -/
def spec_obtain_tips_new_tip (inState : Nat → Bool) (hashes : List Nat) :
    Option CheckedTip :=
  let unknown := hashes.dropLast.dropWhile inState
  match unknown.dropLast.getLast?, unknown.getLast? with
  | some t, some n => some ⟨t, n⟩
  | _, _ => none

/-- `HashSet::insert` on a list-modelled set. -/
def hsInsert (l : List CheckedTip) (t : CheckedTip) : List CheckedTip :=
  if l.contains t then l else t :: l

/-- The prospective-tip update of `obtain_tips` (lines 293-306): when the
new tip's `expected_next` is not already in the accumulated download set,
retain only the existing tips whose `expected_next` does not occur in this
response's `unknown_hashes` and insert the new tip; otherwise discard the
new tip. -/
def obtain_tips_update_tips (download_set : List Nat)
    (prospective_tips : List CheckedTip) (unknown_hashes : List Nat)
    (new_tip : CheckedTip) : List CheckedTip :=
  if !(download_set.contains new_tip.expected_next) then
    hsInsert
      (prospective_tips.filter fun t =>
        !(unknown_hashes.contains t.expected_next))
      new_tip
  else prospective_tips

/-- The prospective-tip update of `extend_tips` (lines 414-427), textually
identical to the one in `obtain_tips`. -/
def extend_tips_update_tips (download_set : List Nat)
    (prospective_tips : List CheckedTip) (unknown_hashes : List Nat)
    (new_tip : CheckedTip) : List CheckedTip :=
  if !(download_set.contains new_tip.expected_next) then
    hsInsert
      (prospective_tips.filter fun t =>
        !(unknown_hashes.contains t.expected_next))
      new_tip
  else prospective_tips

/-- `SYNC_RESTART_TIMEOUT` in seconds; every `AwaitKind.delay` suspension
below is a `delay_for(SYNC_RESTART_TIMEOUT)`. -/
def SYNC_RESTART_TIMEOUT_SECS : Nat := 20

/-- The outcome of one download-and-verify task: the verified hash, or an
error paired with the originally requested hash. -/
inductive TaskResult where
  | ok (h : Nat)
  | err (h : Nat)
  deriving DecidableEq, Repr

/-- Environment events driving the `sync` loop model:
* `ready r`: the answer to a non-blocking `pending_blocks.next().now_or_never()`
  poll (`none` when no task is ready);
* `taskDone r`: the completion awaited by the blocking
  `pending_blocks.next().await`;
* `inState b`: the answer to a `state_contains(hash)` query;
* `obtainRes ok newTips downloads`: the outcome of `obtain_tips`: failure, or
  the resulting number of prospective tips plus the download set handed to
  `request_blocks` (each entry's flag tells whether `state_contains` already
  holds for that hash, in which case `request_blocks` skips it);
* `extendRes newTips downloads`: likewise for `extend_tips`. -/
inductive SyncEv where
  | ready (r : Option TaskResult)
  | taskDone (r : TaskResult)
  | inState (b : Bool)
  | obtainRes (ok : Bool) (newTips : Nat) (downloads : List Bool)
  | extendRes (newTips : Nat) (downloads : List Bool)
  deriving DecidableEq, Repr

/-- The kinds of modelled suspension points of `Syncer::sync`. -/
inductive AwaitKind where
  | stateQuery
  | netReady
  | taskWait
  | delay
  deriving DecidableEq, Repr

/-- A suspension point together with `pending_blocks.len()` at the moment
of suspension. -/
structure AwaitPt where
  kind : AwaitKind
  pendingLen : Nat
  deriving DecidableEq, Repr

/-- Control positions of the `sync` outer loop:
* `preDrain`: top of `'sync` (lines 96-105), draining ready tasks with
  errors ignored;
* `reset`: lines 107-109, wiping `prospective_tips` and `pending_blocks`;
* `obtain`: the `obtain_tips` call (lines 111-117);
* `requesting dl`: inside `request_blocks` with `dl` the hashes still to
  dispatch (lines 480-545);
* `innerTop`: the `while !prospective_tips.is_empty()` check (line 119; on
  exhaustion, the line 201-202 backoff);
* `innerDrain`: the non-blocking drain at lines 121-153;
* `innerAfterDrain`: the lookahead check at lines 155-197. -/
inductive SyncPhase where
  | preDrain
  | reset
  | obtain
  | requesting (dl : List Bool)
  | innerTop
  | innerDrain
  | innerAfterDrain
  deriving DecidableEq, Repr

/-- The task-local state of the loop: the control position, the number of
prospective tips, and the number of pending download tasks. -/
structure SyncSt where
  phase : SyncPhase
  tips : Nat
  pending : Nat
  deriving DecidableEq, Repr

/-- The state at entry to the `'sync` loop, right after `request_genesis`. -/
def syncInit : SyncSt := ⟨.preDrain, 0, 0⟩

/-- One small step of the `sync` loop model, given `LOOKAHEAD_LIMIT` (its
numeric value, `2 * MAX_CHECKPOINT_HEIGHT_GAP`, lives outside this excerpt,
so it is a parameter).  Returns the suspension points passed, the next
state, and the remaining events; `none` halts the model (event mismatch).
The awaits inside `obtain_tips`/`extend_tips` fanout and the readiness
acquisitions before each dispatch are modelled at the granularity of
`request_blocks`: one `stateQuery` await per considered hash and one
`netReady` await per dispatched hash, each at the current
`pending_blocks.len()`. -/
def syncStep (limit : Nat) (s : SyncSt) (evs : List SyncEv) :
    Option (List AwaitPt × SyncSt × List SyncEv) :=
  match s.phase with
  | .preDrain =>
    match s.pending with
    | 0 => some ([], { s with phase := .reset }, evs)
    | p + 1 =>
      match evs with
      | .ready none :: rest => some ([], { s with phase := .reset }, rest)
      | .ready (some _) :: rest => some ([], { s with pending := p }, rest)
      | _ => none
  | .reset => some ([], ⟨.obtain, 0, 0⟩, evs)
  | .obtain =>
    match evs with
    | .obtainRes ok nt dl :: rest =>
      if ok then some ([], ⟨.requesting dl, nt, s.pending⟩, rest)
      else some ([⟨.delay, s.pending⟩], { s with phase := .preDrain }, rest)
    | _ => none
  | .requesting [] => some ([], { s with phase := .innerTop }, evs)
  | .requesting (b :: dl) =>
    if b then
      some ([⟨.stateQuery, s.pending⟩], { s with phase := .requesting dl }, evs)
    else
      some ([⟨.stateQuery, s.pending⟩, ⟨.netReady, s.pending⟩],
        { s with phase := .requesting dl, pending := s.pending + 1 }, evs)
  | .innerTop =>
    if s.tips = 0 then
      some ([⟨.delay, s.pending⟩], { s with phase := .preDrain }, evs)
    else some ([], { s with phase := .innerDrain }, evs)
  | .innerDrain =>
    match s.pending with
    | 0 => some ([], { s with phase := .innerAfterDrain }, evs)
    | p + 1 =>
      match evs with
      | .ready none :: rest =>
        some ([], { s with phase := .innerAfterDrain }, rest)
      | .ready (some (.ok _)) :: rest =>
        some ([], { s with pending := p }, rest)
      | .ready (some (.err _)) :: .inState true :: rest =>
        some ([⟨.stateQuery, p⟩], { s with pending := p }, rest)
      | .ready (some (.err _)) :: .inState false :: rest =>
        some ([⟨.stateQuery, p⟩, ⟨.delay, p⟩], ⟨.preDrain, s.tips, p⟩, rest)
      | _ => none
  | .innerAfterDrain =>
    if limit < s.pending then
      match evs with
      | .taskDone (.ok _) :: rest =>
        some ([⟨.taskWait, s.pending⟩],
          { s with phase := .innerTop, pending := s.pending - 1 }, rest)
      | .taskDone (.err _) :: .inState true :: rest =>
        some ([⟨.taskWait, s.pending⟩, ⟨.stateQuery, s.pending - 1⟩],
          { s with phase := .innerTop, pending := s.pending - 1 }, rest)
      | .taskDone (.err _) :: .inState false :: rest =>
        some ([⟨.taskWait, s.pending⟩, ⟨.stateQuery, s.pending - 1⟩,
            ⟨.delay, s.pending - 1⟩],
          ⟨.preDrain, s.tips, s.pending - 1⟩, rest)
      | _ => none
    else
      match evs with
      | .extendRes nt dl :: rest =>
        some ([], ⟨.requesting dl, nt, s.pending⟩, rest)
      | _ => none

/-- Run the `sync` loop model for `fuel` steps, collecting every suspension
point passed. -/
def runSync (limit : Nat) : Nat → SyncSt → List SyncEv → List AwaitPt
  | 0, _, _ => []
  | fuel + 1, s, evs =>
    match syncStep limit s evs with
    | none => []
    | some (aws, s', evs') => aws ++ runSync limit fuel s' evs'

/-- The download-set size carried by an environment event (zero for events
that trigger no `request_blocks` call). -/
def SyncEv.dlLen : SyncEv → Nat
  | .obtainRes _ _ dl => dl.length
  | .extendRes _ dl => dl.length
  | _ => 0

/-! ## Concrete values used by witnesses -/

/-- A genesis block: previous hash is the pre-genesis sentinel; one
coinbase transaction with a single zero-valued output. -/
def genesisFin : SemanticallyVerifiedBlockWithTrees :=
  { verified :=
      { block :=
          { header := { previous_block_hash := 0, rest := 0 }
            transactions :=
              [{ inputs := [none], outputs := [⟨0, none⟩],
                 nullifiers := [], anchors := [] }] }
        hash := 5
        height := 0
        new_outputs := [((11, 0), ⟨0, none⟩)]
        transaction_hashes := [11] }
    treestate := { note_commitment_trees := NoteCommitmentTrees.default } }

/-- The database reached by committing only `genesisFin` to the empty
database. -/
def genesisDb : ZebraDb :=
  { hash_by_height := [(0, 5)]
    height_by_hash := [(5, 0)]
    block_header_by_height := [(0, { previous_block_hash := 0, rest := 0 })]
    tx_by_loc :=
      [((0, 0),
        { inputs := [none], outputs := [⟨0, none⟩],
          nullifiers := [], anchors := [] })]
    hash_by_tx_loc := [((0, 0), 11)]
    tx_loc_by_hash := [(11, (0, 0))]
    utxo_by_out_loc := []
    out_loc_by_outpoint := []
    balance_by_address := []
    sprout_note_commitment_tree := [(0, 0)]
    sapling_note_commitment_tree := [(0, 0)]
    orchard_note_commitment_tree := [(0, 0)]
    nullifiers := []
    anchors := []
    value_pool := ValueBalance.zero }

/-- A database holding one unspent 5-zat output (at outpoint `(11, 0)`,
location `((0,0),0)`) and a zero value pool. -/
def dbSpend : ZebraDb :=
  { ZebraDb.empty with
    utxo_by_out_loc := [(((0, 0), 0), ⟨5, none⟩)]
    out_loc_by_outpoint := [((11, 0), ((0, 0), 0))] }

/-- A non-genesis block spending the 5-zat output of `dbSpend` while
creating no outputs: committing it must underflow the transparent pool. -/
def finSpend : SemanticallyVerifiedBlockWithTrees :=
  { verified :=
      { block :=
          { header := { previous_block_hash := 7, rest := 0 }
            transactions :=
              [{ inputs := [some (11, 0)], outputs := [],
                 nullifiers := [], anchors := [] }] }
        hash := 9
        height := 1
        new_outputs := []
        transaction_hashes := [12] }
    treestate := { note_commitment_trees := NoteCommitmentTrees.default } }

/-- A trivial non-genesis block at an arbitrary height with an arbitrary
previous hash: one coinbase-style transaction, no transparent or shielded
content. -/
def simpleFin (h prev bh th : Nat) : SemanticallyVerifiedBlockWithTrees :=
  { verified :=
      { block :=
          { header := { previous_block_hash := prev, rest := 0 }
            transactions :=
              [{ inputs := [none], outputs := [],
                 nullifiers := [], anchors := [] }] }
        hash := bh
        height := h
        new_outputs := []
        transaction_hashes := [th] }
    treestate := { note_commitment_trees := NoteCommitmentTrees.default } }

/-- A two-transaction block whose second transaction spends an output of
its first (an intra-block spend), over an empty UTXO index. -/
def finIntra : SemanticallyVerifiedBlockWithTrees :=
  { verified :=
      { block :=
          { header := { previous_block_hash := 7, rest := 0 }
            transactions :=
              [{ inputs := [none], outputs := [⟨4, some 1⟩],
                 nullifiers := [], anchors := [] },
               { inputs := [some (21, 0)], outputs := [⟨4, some 1⟩],
                 nullifiers := [], anchors := [] }] }
        hash := 9
        height := 1
        new_outputs := [((21, 0), ⟨4, some 1⟩), ((22, 0), ⟨4, some 1⟩)]
        transaction_hashes := [21, 22] }
    treestate := { note_commitment_trees := NoteCommitmentTrees.default } }

/-! ## Helper lemmas -/

lemma zsGet_isSome_mem {K V : Type} [DecidableEq K] (l : List (K × V)) (k : K)
    (h : (zsGet l k).isSome) : ∃ v, (k, v) ∈ l := by
  induction l with
  | nil => simp [zsGet] at h
  | cons p rest ih =>
    rcases p with ⟨k', v'⟩
    by_cases hk : k = k'
    · exact ⟨v', by simp [hk]⟩
    · simp only [zsGet, if_neg hk] at h
      obtain ⟨v, hv⟩ := ih h
      exact ⟨v, List.mem_cons_of_mem _ hv⟩

lemma collectByTxLoc_eq_nil {V : Type} (cf : List (TransactionLocation × V))
    (h fuel idx : Nat) (hget : zsGet cf (h, idx) = none) :
    ZebraDb.collectByTxLoc cf h (fuel + 1) idx = [] := by
  unfold ZebraDb.collectByTxLoc
  rw [hget]

lemma collectResolved_isSome {A B : Type} (f : A → Option B) (l : List A)
    (h : ∀ a ∈ l, (f a).isSome) : (collectResolved f l).isSome := by
  induction l with
  | nil => simp [collectResolved]
  | cons a rest ih =>
    have ha := h a (List.mem_cons_self a rest)
    have hrest := ih fun x hx => h x (List.mem_cons_of_mem _ hx)
    obtain ⟨b, hb⟩ := Option.isSome_iff_exists.mp ha
    obtain ⟨bs, hbs⟩ := Option.isSome_iff_exists.mp hrest
    simp [collectResolved, hb, hbs]

/-! ## C8: hash and height block lookups agree -/

/-- C8: for every hash `x` present in the store, `block (Hash x)` returns
exactly `block (Height (height x))`: the hash argument is resolved through
`height_by_hash` and the two lookups then run the same code, so they agree
(both present with the same block, or both absent). -/
theorem block_hash_height_agree (db : ZebraDb) (x h : Nat)
    (hx : db.height x = some h) :
    db.block (.hash x) = db.block (.height h) := by
  simp [ZebraDb.block, HashOrHeight.height_or_else, hx]

/-- Witness for C8 on the concrete genesis database. -/
theorem block_hash_height_agree_witness :
    genesisDb.height 5 = some 0 ∧
      genesisDb.block (.hash 5) = genesisDb.block (.height 0) :=
  ⟨rfl, block_hash_height_agree genesisDb 5 0 rfl⟩

/-! ## C10: transaction hashes for an absent height -/

/-- C10: `transaction_hashes_for_block` applied to a `Height` argument
never checks that the height exists: if the first probe misses (as it does
whenever no block is stored at that height), the result is `some []`, not
`none`; and for a `Hash` argument the result is `none` exactly when the
hash is not in the store. -/
theorem transaction_hashes_missing_height :
    (∀ (db : ZebraDb) (h : Nat), zsGet db.hash_by_tx_loc (h, 0) = none →
      db.transaction_hashes_for_block (.height h) = some []) ∧
    (∀ (db : ZebraDb) (x : Nat),
      db.transaction_hashes_for_block (.hash x) = none ↔ db.height x = none) := by
  constructor
  · intro db h hget
    simp only [ZebraDb.transaction_hashes_for_block,
      HashOrHeight.height_or_else, Option.map_some', Option.some.injEq]
    exact collectByTxLoc_eq_nil db.hash_by_tx_loc h Transaction.max_allocation
      0 hget
  · intro db x
    simp [ZebraDb.transaction_hashes_for_block, HashOrHeight.height_or_else]

/-- Witness for C10 at height 5 of the empty database. -/
theorem transaction_hashes_missing_height_witness :
    ZebraDb.empty.transaction_hashes_for_block (.height 5) = some [] :=
  transaction_hashes_missing_height.1 ZebraDb.empty 5 rfl

/-! ## C1: staging errors leave the committed state untouched -/

/-- C1: if staging the batch (`prepare_block_batch`, reached through
`write_block_staged`) returns an error, then `write_block` propagates that
error and the database is returned unchanged, so every read accessor (tip,
block, transaction, address balances, value pool) observes exactly the
pre-call state. -/
theorem write_block_error_atomic (db : ZebraDb)
    (fin : SemanticallyVerifiedBlockWithTrees)
    (trees : Option NoteCommitmentTrees) (net : Nat) (e : String)
    (hst : db.write_block_staged fin trees net = some (.error e)) :
    db.write_block fin trees net = some (.error e, db) ∧
    ∀ res dbOut, db.write_block fin trees net = some (res, dbOut) →
      res = .error e ∧ dbOut.tip = db.tip ∧
      (∀ hh, dbOut.block hh = db.block hh) ∧
      (∀ t, dbOut.transaction t = db.transaction t) ∧
      (∀ a, dbOut.address_balance_location a = db.address_balance_location a) ∧
      dbOut.finalized_value_pool = db.finalized_value_pool := by
  have h1 : db.write_block fin trees net = some (.error e, db) := by
    simp [ZebraDb.write_block, hst]
  refine ⟨h1, ?_⟩
  intro res dbOut h2
  rw [h1] at h2
  obtain ⟨hres, hdb⟩ := Prod.mk.injEq .. ▸ Option.some.injEq .. ▸ h2
  subst hdb
  exact ⟨hres.symm ▸ rfl, rfl, fun _ => rfl, fun _ => rfl, fun _ => rfl, rfl⟩

/-- Witness for C1: spending a 5-zat UTXO in a block with no outputs over a
zero value pool makes the value-pool staging step fail; `write_block`
returns that error and `dbSpend` unchanged. -/
theorem write_block_error_atomic_witness :
    dbSpend.write_block finSpend none 0 =
      some (.error "value pool underflow", dbSpend) :=
  (write_block_error_atomic dbSpend finSpend none 0 "value pool underflow"
      rfl).1

/-! ## C9: `write_block` enforces no height precondition -/

/-- The batch staged when committing `simpleFin h prev bh th`. -/
def simpleBatch (h prev bh th : Nat) : DiskWriteBatch :=
  { block_header_by_height := [(h, { previous_block_hash := prev, rest := 0 })]
    hash_by_height := [(h, bh)]
    height_by_hash := [(bh, h)]
    tx_by_loc :=
      [((h, 0),
        { inputs := [none], outputs := [],
          nullifiers := [], anchors := [] })]
    hash_by_tx_loc := [((h, 0), th)]
    tx_loc_by_hash := [(th, (h, 0))]
    sprout_tree_inserts := [(h, 0)]
    sapling_tree_inserts := [(h, 0)]
    orchard_tree_inserts := [(h, 0)]
    value_pool := some ValueBalance.zero }

/-- C9: `write_block` never compares the block's height with the tip: once
staging succeeds the batch is committed and the block's hash returned, and
in particular a non-genesis block whose height is arbitrary (so in general
not `tip_height + 1`) over the genesis database still commits and returns
`Ok` with its hash, indexing the block at its claimed height. -/
theorem write_block_no_height_check :
    (∀ (db : ZebraDb) (fin : SemanticallyVerifiedBlockWithTrees)
       (trees : Option NoteCommitmentTrees) (net : Nat)
       (batch : DiskWriteBatch),
       db.write_block_staged fin trees net = some (.ok batch) →
       db.write_block fin trees net =
         some (.ok fin.verified.hash, db.write batch)) ∧
    (∀ h prev bh th : Nat, prev ≠ 0 →
       ∃ db', genesisDb.write_block (simpleFin h prev bh th) none 0 =
           some (.ok bh, db') ∧ db'.height bh = some h) := by
  constructor
  · intro db fin trees net batch hst
    simp [ZebraDb.write_block, hst]
  · intro h prev bh th hprev
    have hst : genesisDb.write_block_staged (simpleFin h prev bh th) none 0 =
        some (.ok (simpleBatch h prev bh th)) := by
      simp only [simpleBatch]
      simp [ZebraDb.write_block_staged, simpleFin, tx_hash_indexes,
        new_outputs_by_out_loc_opt, spent_utxos_opt, spentOutpoints,
        collectResolved, changed_addresses, address_balances,
        DiskWriteBatch.new, DiskWriteBatch.prepare_block_batch,
        DiskWriteBatch.prepare_block_header_and_transaction_data_batch,
        DiskWriteBatch.prepare_genesis_batch,
        DiskWriteBatch.prepare_transparent_transaction_batch,
        DiskWriteBatch.prepare_shielded_transaction_batch,
        DiskWriteBatch.prepare_trees_batch,
        DiskWriteBatch.prepare_chain_value_pools_batch,
        transparentPoolChange, collectExcept, GENESIS_PREVIOUS_BLOCK_HASH,
        hprev, List.enum, List.enumFrom, zsInsert, utxoSumFor,
        ZebraDb.finalized_value_pool, genesisDb, ValueBalance.zero,
        Except.instMonad, Except.bind, Except.map, Except.pure, Bind.bind,
        Pure.pure, NoteCommitmentTrees.default]
    have h1 : genesisDb.write_block (simpleFin h prev bh th) none 0 =
        some (.ok bh, genesisDb.write (simpleBatch h prev bh th)) := by
      unfold ZebraDb.write_block
      rw [hst]
      rfl
    refine ⟨_, h1, ?_⟩
    simp [ZebraDb.write, genesisDb, simpleBatch, applyInserts, zsInsert,
      ZebraDb.height, zsGet]

/-- Witness for C9: height 5 over a tip at height 0, previous hash 7. -/
theorem write_block_no_height_check_witness :
    ∃ db', genesisDb.write_block (simpleFin 5 7 9 13) none 0 =
        some (.ok 9, db') ∧ db'.height 9 = some 5 :=
  write_block_no_height_check.2 5 7 9 13 (by decide)

/-! ## C4: tip formation in `obtain_tips` -/

lemma first_unknown_suffix_eq_dropWhile (inState : Nat → Bool) (l : List Nat) :
    first_unknown_suffix inState l =
      if (l.dropWhile inState).isEmpty then none
      else some (l.dropWhile inState) := by
  induction l with
  | nil => rfl
  | cons a rest ih =>
    by_cases ha : inState a
    · simpa [first_unknown_suffix, ha, List.dropWhile_cons] using ih
    · simp [first_unknown_suffix, ha, List.dropWhile_cons]

lemma checked_tip_from_rchunks_eq (u : List Nat) :
    checked_tip_from_rchunks u =
      match u.dropLast.getLast?, u.getLast? with
      | some t, some n => some (⟨t, n⟩ : CheckedTip)
      | _, _ => none := by
  induction u using List.reverseRecOn with
  | nil => rfl
  | append_singleton l a _ =>
    rw [List.dropLast_concat, List.getLast?_concat]
    simp only [checked_tip_from_rchunks, List.reverse_append, List.reverse_cons,
      List.reverse_nil, List.nil_append, List.singleton_append]
    rw [List.getLast?_eq_head?_reverse]
    cases l.reverse with
    | nil => rfl
    | cons b t => rfl

/-- C4: the per-response tip computation of `obtain_tips` agrees with the
spec's description: the trailing hash is discarded, `unknown_hashes` is the
suffix starting at the first hash not in state, a tip
`{tip = second-last, expected_next = last}` is formed when at least two
unknown hashes remain and no tip otherwise; in particular the response
`[A, B, C, GARBAGE]` with nothing in state yields
`{tip = B, expected_next = C}`. -/
theorem obtain_tips_tip_formation :
    (∀ (inState : Nat → Bool) (hashes : List Nat),
       obtain_tips_new_tip inState hashes =
         spec_obtain_tips_new_tip inState hashes) ∧
    (∀ (inState : Nat → Bool) (l : List Nat),
       first_unknown_suffix inState l =
         if (l.dropWhile inState).isEmpty then none
         else some (l.dropWhile inState)) ∧
    obtain_tips_new_tip (fun _ => false) [1, 2, 3, 4] =
      some ⟨2, 3⟩ := by
  refine ⟨?_, first_unknown_suffix_eq_dropWhile, by decide⟩
  intro inState hashes
  cases hashes with
  | nil => rfl
  | cons a rest =>
    show ((first_unknown_suffix inState (a :: rest).dropLast).bind
        checked_tip_from_rchunks) = _
    rw [first_unknown_suffix_eq_dropWhile]
    by_cases hemp : ((a :: rest).dropLast.dropWhile inState).isEmpty
    · rw [if_pos hemp]
      rw [List.isEmpty_iff] at hemp
      simp [spec_obtain_tips_new_tip, hemp]
    · rw [if_neg hemp]
      simp only [Option.bind_some, spec_obtain_tips_new_tip]
      exact checked_tip_from_rchunks_eq _

/-! ## C5: prospective-tip subsumption -/

lemma mem_hsInsert (l : List CheckedTip) (nt t : CheckedTip) :
    t ∈ hsInsert l nt ↔ t = nt ∨ t ∈ l := by
  unfold hsInsert
  by_cases hc : l.contains nt
  · rw [if_pos hc]
    constructor
    · exact Or.inr
    · rintro (rfl | ht)
      · exact List.mem_of_elem_eq_true hc
      · exact ht
  · rw [if_neg hc]
    simp [List.mem_cons]

/-- C5: in both `obtain_tips` and `extend_tips`, when the new tip's
`expected_next` is not in the accumulated download set, exactly the
existing tips whose `expected_next` occurs in this response's
`unknown_hashes` are removed and the new tip is inserted; when it is
already in the download set, the tip set is returned unchanged (the new tip
is discarded and nothing is removed). -/
theorem prospective_tips_update (ds : List Nat) (tips : List CheckedTip)
    (unknown : List Nat) (nt : CheckedTip) :
    (ds.contains nt.expected_next = false →
      (∀ t, t ∈ obtain_tips_update_tips ds tips unknown nt ↔
        t = nt ∨ (t ∈ tips ∧ unknown.contains t.expected_next = false)) ∧
      (∀ t, t ∈ extend_tips_update_tips ds tips unknown nt ↔
        t = nt ∨ (t ∈ tips ∧ unknown.contains t.expected_next = false))) ∧
    (ds.contains nt.expected_next = true →
      obtain_tips_update_tips ds tips unknown nt = tips ∧
      extend_tips_update_tips ds tips unknown nt = tips) := by
  constructor
  · intro hds
    have key : ∀ t,
        t ∈ hsInsert
            (tips.filter fun t' => !(unknown.contains t'.expected_next)) nt ↔
          t = nt ∨ (t ∈ tips ∧ unknown.contains t.expected_next = false) := by
      intro t
      rw [mem_hsInsert, List.mem_filter]
      simp [Bool.not_eq_true']
    constructor
    · intro t
      rw [show obtain_tips_update_tips ds tips unknown nt =
          hsInsert (tips.filter fun t' =>
            !(unknown.contains t'.expected_next)) nt by
        unfold obtain_tips_update_tips
        rw [hds]
        rfl]
      exact key t
    · intro t
      rw [show extend_tips_update_tips ds tips unknown nt =
          hsInsert (tips.filter fun t' =>
            !(unknown.contains t'.expected_next)) nt by
        unfold extend_tips_update_tips
        rw [hds]
        rfl]
      exact key t
  · intro hds
    constructor
    · unfold obtain_tips_update_tips
      rw [hds]
      rfl
    · unfold extend_tips_update_tips
      rw [hds]
      rfl

/-- Witness for C5: with an empty download set, the tip `⟨1, 2⟩` (whose
`expected_next = 2` occurs in the response's unknown hashes) is subsumed
and the new tip `⟨3, 4⟩` inserted; with `4` already in the download set the
tip set is unchanged. -/
theorem prospective_tips_update_witness :
    (⟨3, 4⟩ : CheckedTip) ∈ obtain_tips_update_tips [] [⟨1, 2⟩] [2] ⟨3, 4⟩ ∧
      ((⟨1, 2⟩ : CheckedTip) ∈ obtain_tips_update_tips [] [⟨1, 2⟩] [2] ⟨3, 4⟩ ↔
        False) ∧
      extend_tips_update_tips [4] [⟨1, 2⟩] [2] ⟨3, 4⟩ = [⟨1, 2⟩] := by
  have h1 := (prospective_tips_update [] [⟨1, 2⟩] [2] ⟨3, 4⟩).1 (by decide)
  have h2 := (prospective_tips_update [4] [⟨1, 2⟩] [2] ⟨3, 4⟩).2 (by decide)
  refine ⟨(h1.1 ⟨3, 4⟩).mpr (Or.inl rfl), ?_, h2.2⟩
  rw [h1.1 ⟨1, 2⟩]
  simp

/-! ## C6: task-error handling in the sync outer loop -/

/-- C6: when a pending task completes with an error (in the non-blocking
drain or in the blocking over-lookahead wait), the syncer queries the state
for the failed hash; if the block is already in state the error is only
logged and the loop continues, and if it is not, a
`SYNC_RESTART_TIMEOUT` delay is taken and control returns to the top of the
outer loop, whose reset step then replaces `prospective_tips` and
`pending_blocks` with empty collections. -/
theorem sync_error_drain_behavior :
    (∀ (limit t p hx : Nat) (rest : List SyncEv),
       syncStep limit ⟨.innerDrain, t, p + 1⟩
           (.ready (some (.err hx)) :: .inState true :: rest) =
         some ([⟨.stateQuery, p⟩], ⟨.innerDrain, t, p⟩, rest)) ∧
    (∀ (limit t p hx : Nat) (rest : List SyncEv),
       syncStep limit ⟨.innerDrain, t, p + 1⟩
           (.ready (some (.err hx)) :: .inState false :: rest) =
         some ([⟨.stateQuery, p⟩, ⟨.delay, p⟩], ⟨.preDrain, t, p⟩, rest)) ∧
    (∀ (limit t p hx : Nat) (rest : List SyncEv), limit < p + 1 →
       syncStep limit ⟨.innerAfterDrain, t, p + 1⟩
           (.taskDone (.err hx) :: .inState true :: rest) =
         some ([⟨.taskWait, p + 1⟩, ⟨.stateQuery, p⟩],
           ⟨.innerTop, t, p⟩, rest)) ∧
    (∀ (limit t p hx : Nat) (rest : List SyncEv), limit < p + 1 →
       syncStep limit ⟨.innerAfterDrain, t, p + 1⟩
           (.taskDone (.err hx) :: .inState false :: rest) =
         some ([⟨.taskWait, p + 1⟩, ⟨.stateQuery, p⟩, ⟨.delay, p⟩],
           ⟨.preDrain, t, p⟩, rest)) ∧
    (∀ (limit t p : Nat) (evs : List SyncEv),
       syncStep limit ⟨.reset, t, p⟩ evs = some ([], ⟨.obtain, 0, 0⟩, evs)) := by
  refine ⟨fun _ _ _ _ _ => rfl, fun _ _ _ _ _ => rfl, ?_, ?_, fun _ _ _ _ => rfl⟩
  · intro limit t p hx rest hlt
    simp [syncStep, hlt]
  · intro limit t p hx rest hlt
    simp [syncStep, hlt]

/-- Witness for C6's blocking-wait clauses at concrete values. -/
theorem sync_error_drain_behavior_witness :
    syncStep 0 ⟨.innerAfterDrain, 1, 1⟩
        (.taskDone (.err 5) :: .inState false :: []) =
      some ([⟨.taskWait, 1⟩, ⟨.stateQuery, 0⟩, ⟨.delay, 0⟩],
        ⟨.preDrain, 1, 0⟩, []) :=
  sync_error_drain_behavior.2.2.2.1 0 1 0 5 [] (by decide)

/-! ## C2: the genesis batch -/

lemma zip_enumFrom_map_fst {A B C : Type} (F : Nat → A → C) :
    ∀ (n : Nat) (l1 : List A) (l2 : List B), l1.length = l2.length →
      ((l1.zip l2).enumFrom n).map (fun p => F p.1 p.2.1) =
        (l1.enumFrom n).map (fun p => F p.1 p.2) := by
  intro n l1
  induction l1 generalizing n with
  | nil => intro l2 _; rfl
  | cons a t1 ih =>
    intro l2 hlen
    cases l2 with
    | nil => simp at hlen
    | cons b t2 =>
      simp only [List.zip_cons_cons, List.enumFrom, List.map_cons]
      exact congrArg (List.cons _) (ih (n + 1) t2 (by simpa using hlen))

lemma zip_enumFrom_map_snd {A B C : Type} (F : Nat → B → C) :
    ∀ (n : Nat) (l1 : List A) (l2 : List B), l1.length = l2.length →
      ((l1.zip l2).enumFrom n).map (fun p => F p.1 p.2.2) =
        (l2.enumFrom n).map (fun p => F p.1 p.2) := by
  intro n l1
  induction l1 generalizing n with
  | nil =>
    intro l2 hlen
    cases l2 with
    | nil => rfl
    | cons b t2 => simp at hlen
  | cons a t1 ih =>
    intro l2 hlen
    cases l2 with
    | nil => simp at hlen
    | cons b t2 =>
      simp only [List.zip_cons_cons, List.enumFrom, List.map_cons]
      exact congrArg (List.cons _) (ih (n + 1) t2 (by simpa using hlen))

/-- The batch staged for a genesis block `fin`: the header, the two
hash/height indexes, all transactions with their bidirectional
hash/location indexes, and the three empty note commitment trees keyed at
the block's height; nothing else. -/
def genesisBatchOf (fin : SemanticallyVerifiedBlockWithTrees) :
    DiskWriteBatch :=
  { block_header_by_height :=
      [(fin.verified.height, fin.verified.block.header)]
    hash_by_height := [(fin.verified.height, fin.verified.hash)]
    height_by_hash := [(fin.verified.hash, fin.verified.height)]
    tx_by_loc :=
      fin.verified.block.transactions.enum.map
        fun p => ((fin.verified.height, p.1), p.2)
    hash_by_tx_loc :=
      fin.verified.transaction_hashes.enum.map
        fun p => ((fin.verified.height, p.1), p.2)
    tx_loc_by_hash :=
      fin.verified.transaction_hashes.enum.map
        fun p => (p.2, (fin.verified.height, p.1))
    sprout_tree_inserts := [(fin.verified.height, 0)]
    sapling_tree_inserts := [(fin.verified.height, 0)]
    orchard_tree_inserts := [(fin.verified.height, 0)] }

/-- C2: for every block whose previous hash is the pre-genesis sentinel
(and whose treestate passes the genesis assertions), `prepare_block_batch`
ignores every transparent/shielded/value-pool argument and produces exactly
the genesis batch: header, hash/height indexes, transactions with their
bidirectional indexes, and the three empty note commitment trees at the
block's height — and no UTXO, outpoint-index, address-balance, nullifier,
anchor, or value-pool update (those fields of `genesisBatchOf` are empty by
definition).  Moreover committing only the concrete genesis block to the
empty database yields a zero value pool and no indexed UTXOs. -/
theorem genesis_batch_contents :
    (∀ (net : Nat) (fin : SemanticallyVerifiedBlockWithTrees)
       (nol : List (OutputLocation × Utxo)) (sbo : List (OutPoint × Utxo))
       (sbl : List (OutputLocation × Utxo))
       (ab : List (Nat × AddressBalanceLocation)) (vp : ValueBalance)
       (pt : Option NoteCommitmentTrees),
       fin.verified.block.header.previous_block_hash =
         GENESIS_PREVIOUS_BLOCK_HASH →
       fin.treestate.note_commitment_trees = NoteCommitmentTrees.default →
       fin.verified.transaction_hashes.length =
         fin.verified.block.transactions.length →
       (DiskWriteBatch.new net).prepare_block_batch fin nol sbo sbl ab vp pt =
         some (.ok (genesisBatchOf fin))) ∧
    (ZebraDb.empty.write_block genesisFin none 0 = some (.ok 5, genesisDb) ∧
      genesisDb.value_pool = ValueBalance.zero ∧
      genesisDb.utxo_by_out_loc = [] ∧
      genesisDb.out_loc_by_outpoint = []) := by
  constructor
  · intro net fin nol sbo sbl ab vp pt hprev htrees hlen
    have h1 : ((fin.verified.block.transactions.zip
          fin.verified.transaction_hashes).enumFrom 0).map
          (fun p => (((fin.verified.height, p.1), p.2.1) :
            TransactionLocation × Transaction)) =
        (fin.verified.block.transactions.enumFrom 0).map
          (fun p => ((fin.verified.height, p.1), p.2)) :=
      zip_enumFrom_map_fst (fun i tx => ((fin.verified.height, i), tx))
        0 _ _ hlen.symm
    have h2 : ((fin.verified.block.transactions.zip
          fin.verified.transaction_hashes).enumFrom 0).map
          (fun p => (((fin.verified.height, p.1), p.2.2) :
            TransactionLocation × Nat)) =
        (fin.verified.transaction_hashes.enumFrom 0).map
          (fun p => ((fin.verified.height, p.1), p.2)) :=
      zip_enumFrom_map_snd (fun i th => ((fin.verified.height, i), th))
        0 _ _ hlen.symm
    have h3 : ((fin.verified.block.transactions.zip
          fin.verified.transaction_hashes).enumFrom 0).map
          (fun p => ((p.2.2, (fin.verified.height, p.1)) :
            Nat × TransactionLocation)) =
        (fin.verified.transaction_hashes.enumFrom 0).map
          (fun p => (p.2, (fin.verified.height, p.1))) :=
      zip_enumFrom_map_snd (fun i th => (th, (fin.verified.height, i)))
        0 _ _ hlen.symm
    simp only [DiskWriteBatch.prepare_block_batch,
      DiskWriteBatch.prepare_block_header_and_transaction_data_batch,
      DiskWriteBatch.prepare_genesis_batch, DiskWriteBatch.new, hprev, htrees,
      GENESIS_PREVIOUS_BLOCK_HASH, NoteCommitmentTrees.default,
      genesisBatchOf, List.nil_append, List.enum, if_true, reduceIte]
    rw [h1, h2, h3]
  · exact ⟨rfl, rfl, rfl, rfl⟩

/-- Witness for C2's general clause at the concrete genesis block. -/
theorem genesis_batch_contents_witness :
    (DiskWriteBatch.new 0).prepare_block_batch genesisFin [] [] [] []
        ValueBalance.zero none = some (.ok (genesisBatchOf genesisFin)) :=
  genesis_batch_contents.1 0 genesisFin [] [] [] [] ValueBalance.zero none
    rfl rfl rfl

/-! ## C3: spent-output resolution cannot panic -/

/-- C3: under the caller's contract — every outpoint spent by an input of
the block is either in the store's UTXO index or among the block's own new
outputs — and with `new_outputs` well formed (every new outpoint's
transaction hash is one of the block's transaction hashes, as holds by
construction of `SemanticallyVerifiedBlock`), the `spent_utxos` resolution
of `write_block` succeeds: neither the `expect` in the UTXO lookup nor the
`expect` inside `lookup_out_loc` is reachable. -/
theorem spent_resolution_no_panic (db : ZebraDb)
    (fin : SemanticallyVerifiedBlockWithTrees)
    (havail : ∀ op ∈ spentOutpoints fin.verified.block,
      (db.utxo op).isSome = true ∨
        (zsGet fin.verified.new_outputs op).isSome = true)
    (hwf : ∀ p ∈ fin.verified.new_outputs,
      (zsGet (tx_hash_indexes fin) p.1.1).isSome = true) :
    (spent_utxos_opt db fin (tx_hash_indexes fin)).isSome = true := by
  unfold spent_utxos_opt
  apply collectResolved_isSome
  intro op hop
  have hav := havail op hop
  unfold resolve_spent
  have hloc : (match db.output_location op with
      | some l => some l
      | none => lookup_out_loc fin.verified.height op
          (tx_hash_indexes fin)).isSome = true := by
    cases hout : db.output_location op with
    | some l => simp
    | none =>
      rcases hav with hu | hn
      · exfalso
        unfold ZebraDb.utxo at hu
        rw [hout] at hu
        simp at hu
      · obtain ⟨v, hv⟩ := zsGet_isSome_mem _ _ hn
        have := hwf (op, v) hv
        simp only [lookup_out_loc]
        obtain ⟨i, hi⟩ := Option.isSome_iff_exists.mp this
        simp [hi]
  have hu : (match db.utxo op with
      | some u => some u
      | none => zsGet fin.verified.new_outputs op).isSome = true := by
    cases hdu : db.utxo op with
    | some u => simp
    | none =>
      rcases hav with h | h
      · rw [hdu] at h; simp at h
      · simpa using h
  obtain ⟨l, hl⟩ := Option.isSome_iff_exists.mp hloc
  obtain ⟨u, hhu⟩ := Option.isSome_iff_exists.mp hu
  rw [hl, hhu]
  rfl

/-- Witness for C3: an intra-block spend (the second transaction of
`finIntra` spends an output of the first) over the empty UTXO index. -/
theorem spent_resolution_no_panic_witness :
    (spent_utxos_opt ZebraDb.empty finIntra
        (tx_hash_indexes finIntra)).isSome = true :=
  spent_resolution_no_panic ZebraDb.empty finIntra (by decide) (by decide)

/-! ## C7: the lookahead bound

`request_blocks` dispatches its whole hash list with no cap, so
`pending_blocks` exceeds `LOOKAHEAD_LIMIT + 1` at suspension points inside
`request_blocks` and at the subsequent blocking drain whenever a download
set carries more than one new hash.  The bound that does hold is
`LOOKAHEAD_LIMIT + D` with `D` the largest download-set size of a single
`request_blocks` call. -/

/-- The invariant of the lookahead analysis: `pending` is within
`limit + D`; the `obtain_tips` call site has an empty pending collection
(it runs right after the reset); and during `request_blocks` even
dispatching every remaining download stays within `limit + D`. -/
def syncInv (limit D : Nat) (s : SyncSt) : Prop :=
  s.pending ≤ limit + D ∧
  (s.phase = .obtain → s.pending = 0) ∧
  (∀ dl, s.phase = .requesting dl → s.pending + dl.length ≤ limit + D)

lemma syncStep_inv (limit D : Nat) :
    ∀ (s : SyncSt) (evs : List SyncEv), syncInv limit D s →
      (∀ e ∈ evs, e.dlLen ≤ D) →
      ∀ aws s' evs', syncStep limit s evs = some (aws, s', evs') →
        (∀ a ∈ aws, a.pendingLen ≤ limit + D) ∧ syncInv limit D s' ∧
          (∀ e ∈ evs', e.dlLen ≤ D) := by
  rintro ⟨ph, t, p⟩ evs ⟨hp, hob, hreq⟩ hevs aws s' evs' hstep
  simp only [syncInv] at *
  cases ph with
  | preDrain =>
    cases p with
    | zero =>
      simp only [syncStep, Option.some.injEq, Prod.mk.injEq] at hstep
      obtain ⟨rfl, rfl, rfl⟩ := hstep
      exact ⟨by simp, ⟨hp, by simp, by simp⟩, hevs⟩
    | succ q =>
      cases evs with
      | nil => simp [syncStep] at hstep
      | cons e rest =>
        have htail : ∀ x ∈ rest, x.dlLen ≤ D :=
          fun x hx => hevs x (List.mem_cons_of_mem _ hx)
        cases e with
        | ready r =>
          cases r with
          | none =>
            simp only [syncStep, Option.some.injEq, Prod.mk.injEq] at hstep
            obtain ⟨rfl, rfl, rfl⟩ := hstep
            exact ⟨by simp, ⟨hp, by simp, by simp⟩, htail⟩
          | some tr =>
            simp only [syncStep, Option.some.injEq, Prod.mk.injEq] at hstep
            obtain ⟨rfl, rfl, rfl⟩ := hstep
            exact ⟨by simp, ⟨by first | omega | (dsimp only; omega), by simp, by simp⟩, htail⟩
        | taskDone r => simp [syncStep] at hstep
        | inState b => simp [syncStep] at hstep
        | obtainRes a b c => simp [syncStep] at hstep
        | extendRes a b => simp [syncStep] at hstep
  | reset =>
    simp only [syncStep, Option.some.injEq, Prod.mk.injEq] at hstep
    obtain ⟨rfl, rfl, rfl⟩ := hstep
    exact ⟨by simp, ⟨by simp, by simp, by simp⟩, hevs⟩
  | obtain =>
    cases evs with
    | nil => simp [syncStep] at hstep
    | cons e rest =>
      have htail : ∀ x ∈ rest, x.dlLen ≤ D :=
        fun x hx => hevs x (List.mem_cons_of_mem _ hx)
      cases e with
      | obtainRes ok nt dl =>
        have hdl : dl.length ≤ D := hevs _ (List.mem_cons_self _ _)
        have hp0 : p = 0 := hob rfl
        cases ok with
        | true =>
          simp only [syncStep, if_true, Option.some.injEq, Prod.mk.injEq] at hstep
          obtain ⟨rfl, rfl, rfl⟩ := hstep
          refine ⟨by simp, ⟨by first | omega | (dsimp only; omega), by simp, ?_⟩, htail⟩
          intro dl' hdl'
          cases hdl'
          dsimp only
          omega
        | false =>
          simp only [syncStep, if_false, Option.some.injEq, Prod.mk.injEq,
            Bool.false_eq_true] at hstep
          obtain ⟨rfl, rfl, rfl⟩ := hstep
          refine ⟨?_, ⟨hp, by simp, by simp⟩, htail⟩
          intro a ha
          rcases List.mem_singleton.mp ha with rfl
          exact hp
      | ready r => simp [syncStep] at hstep
      | taskDone r => simp [syncStep] at hstep
      | inState b => simp [syncStep] at hstep
      | extendRes a b => simp [syncStep] at hstep
  | requesting dlc =>
    cases dlc with
    | nil =>
      simp only [syncStep, Option.some.injEq, Prod.mk.injEq] at hstep
      obtain ⟨rfl, rfl, rfl⟩ := hstep
      exact ⟨by simp, ⟨hp, by simp, by simp⟩, hevs⟩
    | cons b dl' =>
      have hrq : p + (dl'.length + 1) ≤ limit + D := by
        have := hreq (b :: dl') rfl
        simpa using this
      cases b with
      | true =>
        simp only [syncStep, if_true, Option.some.injEq, Prod.mk.injEq] at hstep
        obtain ⟨rfl, rfl, rfl⟩ := hstep
        refine ⟨?_, ⟨hp, by simp, ?_⟩, hevs⟩
        · intro a ha
          rcases List.mem_singleton.mp ha with rfl
          exact hp
        · intro dl'' hdl''
          cases hdl''
          dsimp only
          omega
      | false =>
        simp only [syncStep, if_false, Option.some.injEq, Prod.mk.injEq,
          Bool.false_eq_true] at hstep
        obtain ⟨rfl, rfl, rfl⟩ := hstep
        refine ⟨?_, ⟨by first | omega | (dsimp only; omega), by simp, ?_⟩, hevs⟩
        · intro a ha
          rcases List.mem_cons.mp ha with rfl | ha
          · exact hp
          · rcases List.mem_singleton.mp ha with rfl
            exact hp
        · intro dl'' hdl''
          cases hdl''
          dsimp only
          omega
  | innerTop =>
    by_cases ht : t = 0
    · subst ht
      simp only [syncStep, if_pos rfl, Option.some.injEq, Prod.mk.injEq] at hstep
      obtain ⟨rfl, rfl, rfl⟩ := hstep
      refine ⟨?_, ⟨hp, by simp, by simp⟩, hevs⟩
      intro a ha
      rcases List.mem_singleton.mp ha with rfl
      exact hp
    · simp only [syncStep, if_neg ht, Option.some.injEq, Prod.mk.injEq] at hstep
      obtain ⟨rfl, rfl, rfl⟩ := hstep
      exact ⟨by simp, ⟨hp, by simp, by simp⟩, hevs⟩
  | innerDrain =>
    cases p with
    | zero =>
      simp only [syncStep, Option.some.injEq, Prod.mk.injEq] at hstep
      obtain ⟨rfl, rfl, rfl⟩ := hstep
      exact ⟨by simp, ⟨hp, by simp, by simp⟩, hevs⟩
    | succ q =>
      cases evs with
      | nil => simp [syncStep] at hstep
      | cons e rest =>
        have htail : ∀ x ∈ rest, x.dlLen ≤ D :=
          fun x hx => hevs x (List.mem_cons_of_mem _ hx)
        cases e with
        | ready r =>
          cases r with
          | none =>
            simp only [syncStep, Option.some.injEq, Prod.mk.injEq] at hstep
            obtain ⟨rfl, rfl, rfl⟩ := hstep
            exact ⟨by simp, ⟨hp, by simp, by simp⟩, htail⟩
          | some tr =>
            cases tr with
            | ok hx =>
              simp only [syncStep, Option.some.injEq, Prod.mk.injEq] at hstep
              obtain ⟨rfl, rfl, rfl⟩ := hstep
              exact ⟨by simp, ⟨by first | omega | (dsimp only; omega), by simp, by simp⟩, htail⟩
            | err hx =>
              cases rest with
              | nil => simp [syncStep] at hstep
              | cons e2 rest2 =>
                have htail2 : ∀ x ∈ rest2, x.dlLen ≤ D :=
                  fun x hx2 => htail x (List.mem_cons_of_mem _ hx2)
                cases e2 with
                | inState b =>
                  cases b with
                  | true =>
                    simp only [syncStep, Option.some.injEq, Prod.mk.injEq] at hstep
                    obtain ⟨rfl, rfl, rfl⟩ := hstep
                    refine ⟨?_, ⟨by first | omega | (dsimp only; omega), by simp, by simp⟩, htail2⟩
                    intro a ha
                    rcases List.mem_singleton.mp ha with rfl
                    first | omega | (dsimp only; omega)
                  | false =>
                    simp only [syncStep, Option.some.injEq, Prod.mk.injEq] at hstep
                    obtain ⟨rfl, rfl, rfl⟩ := hstep
                    refine ⟨?_, ⟨by first | omega | (dsimp only; omega), by simp, by simp⟩, htail2⟩
                    intro a ha
                    rcases List.mem_cons.mp ha with rfl | ha
                    · first | omega | (dsimp only; omega)
                    · rcases List.mem_singleton.mp ha with rfl
                      first | omega | (dsimp only; omega)
                | ready r2 => simp [syncStep] at hstep
                | taskDone r2 => simp [syncStep] at hstep
                | obtainRes a b c => simp [syncStep] at hstep
                | extendRes a b => simp [syncStep] at hstep
        | taskDone r => simp [syncStep] at hstep
        | inState b => simp [syncStep] at hstep
        | obtainRes a b c => simp [syncStep] at hstep
        | extendRes a b => simp [syncStep] at hstep
  | innerAfterDrain =>
    by_cases hlim : limit < p
    · cases evs with
      | nil => simp [syncStep, hlim] at hstep
      | cons e rest =>
        have htail : ∀ x ∈ rest, x.dlLen ≤ D :=
          fun x hx => hevs x (List.mem_cons_of_mem _ hx)
        cases e with
        | taskDone r =>
          cases r with
          | ok hx =>
            simp only [syncStep, if_pos hlim, Option.some.injEq,
              Prod.mk.injEq] at hstep
            obtain ⟨rfl, rfl, rfl⟩ := hstep
            refine ⟨?_, ⟨by first | omega | (dsimp only; omega), by simp, by simp⟩, htail⟩
            intro a ha
            rcases List.mem_singleton.mp ha with rfl
            exact hp
          | err hx =>
            cases rest with
            | nil => simp [syncStep, hlim] at hstep
            | cons e2 rest2 =>
              have htail2 : ∀ x ∈ rest2, x.dlLen ≤ D :=
                fun x hx2 => htail x (List.mem_cons_of_mem _ hx2)
              cases e2 with
              | inState b =>
                cases b with
                | true =>
                  simp only [syncStep, if_pos hlim, Option.some.injEq,
                    Prod.mk.injEq] at hstep
                  obtain ⟨rfl, rfl, rfl⟩ := hstep
                  refine ⟨?_, ⟨by first | omega | (dsimp only; omega), by simp, by simp⟩, htail2⟩
                  intro a ha
                  rcases List.mem_cons.mp ha with rfl | ha
                  · exact hp
                  · rcases List.mem_singleton.mp ha with rfl
                    first | omega | (dsimp only; omega)
                | false =>
                  simp only [syncStep, if_pos hlim, Option.some.injEq,
                    Prod.mk.injEq] at hstep
                  obtain ⟨rfl, rfl, rfl⟩ := hstep
                  refine ⟨?_, ⟨by first | omega | (dsimp only; omega), by simp, by simp⟩, htail2⟩
                  intro a ha
                  rcases List.mem_cons.mp ha with rfl | ha
                  · exact hp
                  · rcases List.mem_cons.mp ha with rfl | ha
                    · first | omega | (dsimp only; omega)
                    · rcases List.mem_singleton.mp ha with rfl
                      first | omega | (dsimp only; omega)
              | ready r2 => simp [syncStep, hlim] at hstep
              | taskDone r2 => simp [syncStep, hlim] at hstep
              | obtainRes a b c => simp [syncStep, hlim] at hstep
              | extendRes a b => simp [syncStep, hlim] at hstep
        | ready r => simp [syncStep, hlim] at hstep
        | inState b => simp [syncStep, hlim] at hstep
        | obtainRes a b c => simp [syncStep, hlim] at hstep
        | extendRes a b => simp [syncStep, hlim] at hstep
    · cases evs with
      | nil => simp [syncStep, hlim] at hstep
      | cons e rest =>
        have htail : ∀ x ∈ rest, x.dlLen ≤ D :=
          fun x hx => hevs x (List.mem_cons_of_mem _ hx)
        cases e with
        | extendRes nt dl =>
          have hdl : dl.length ≤ D := hevs _ (List.mem_cons_self _ _)
          simp only [syncStep, if_neg hlim, Option.some.injEq,
            Prod.mk.injEq] at hstep
          obtain ⟨rfl, rfl, rfl⟩ := hstep
          refine ⟨by simp, ⟨hp, by simp, ?_⟩, htail⟩
          intro dl' hdl'
          cases hdl'
          dsimp only
          omega
        | ready r => simp [syncStep, hlim] at hstep
        | taskDone r => simp [syncStep, hlim] at hstep
        | inState b => simp [syncStep, hlim] at hstep
        | obtainRes a b c => simp [syncStep, hlim] at hstep

lemma runSync_bounded (limit D : Nat) :
    ∀ (fuel : Nat) (s : SyncSt) (evs : List SyncEv), syncInv limit D s →
      (∀ e ∈ evs, e.dlLen ≤ D) →
      ∀ a ∈ runSync limit fuel s evs, a.pendingLen ≤ limit + D := by
  intro fuel
  induction fuel with
  | zero =>
    intro s evs _ _ a ha
    simp [runSync] at ha
  | succ n ih =>
    intro s evs hinv hevs a ha
    rw [runSync] at ha
    cases hstep : syncStep limit s evs with
    | none =>
      rw [hstep] at ha
      simp at ha
    | some out =>
      rcases out with ⟨aws, s', evs'⟩
      rw [hstep] at ha
      simp only [List.mem_append] at ha
      obtain ⟨h1, h2, h3⟩ :=
        syncStep_inv limit D s evs hinv hevs aws s' evs' hstep
      rcases ha with ha | ha
      · exact h1 a ha
      · exact ih s' evs' h2 h3 a ha

/-- C7 counterexample: with `LOOKAHEAD_LIMIT = 0`, an `obtain_tips` result
carrying three fresh hashes drives `pending_blocks` to length 2 at a
suspension point inside `request_blocks`, violating
`pending ≤ LOOKAHEAD_LIMIT + 1`: `request_blocks` dispatches its whole list
without consulting the lookahead limit. -/
theorem lookahead_bound_counterexample :
    ¬ (∀ a ∈ runSync 0 10 syncInit
          [SyncEv.obtainRes true 1 [false, false, false]],
        a.pendingLen ≤ 0 + 1) := by decide

/-- C7 amended: at every modelled suspension point of the sync loop,
`pending_blocks` is bounded by `LOOKAHEAD_LIMIT + D`, where `D` bounds the
download-set size of each single `obtain_tips`/`extend_tips` outcome (the
spec's `LOOKAHEAD_LIMIT + 1` is the special case where every response
contributes at most one hash). -/
theorem lookahead_bound_amended (limit D fuel : Nat) (evs : List SyncEv)
    (hevs : ∀ e ∈ evs, e.dlLen ≤ D) :
    ∀ a ∈ runSync limit fuel syncInit evs, a.pendingLen ≤ limit + D :=
  runSync_bounded limit D fuel syncInit evs
    ⟨Nat.zero_le _, fun _ => rfl, fun _ h => nomatch h⟩ hevs

/-- Witness for C7's amended bound: the `netReady` suspension with one
pending task, reached by the concrete run below, satisfies the bound. -/
theorem lookahead_bound_amended_witness :
    (⟨.netReady, 1⟩ : AwaitPt).pendingLen ≤ 1 + 2 :=
  lookahead_bound_amended 1 2 8 [SyncEv.obtainRes true 1 [false, false]]
    (by decide) ⟨.netReady, 1⟩ (by decide)

end ZebraTfl
